import Mathlib

/-!
Verification development for the data-cleaning and derived-metric pipeline of
src/Food_waste.py (lines 65-120), together with the two extra columns added at
lines 200 and 256 and the CSV download of lines 361-366.

Modelling choices:
* pandas float cells are modelled by the type Val: an exact rational together
  with the IEEE special values NaN, +infinity and -infinity.  Rational
  arithmetic is exact, so identities stated up to floating-point epsilon hold
  exactly in this model.
* a DataFrame is a list of column names plus rows given as association lists
  from column name to cell; column assignment overwrites an existing column in
  place, as pandas does.
* accessing a missing column, or comparing a non-integer Year cell against the
  year bounds, raises in pandas; this is modelled with Except.
-/

/-- Addition on rationals in a form that the kernel evaluates (the library
addition is marked irreducible); equal to ordinary addition by qadd_eq. -/
def qadd (a b : ℚ) : ℚ := mkRat (a.num * b.den + b.num * a.den) (a.den * b.den)

/-- Subtraction on rationals in kernel-evaluable form; equal to ordinary
subtraction by qsub_eq. -/
def qsub (a b : ℚ) : ℚ := mkRat (a.num * b.den - b.num * a.den) (a.den * b.den)

/-- Multiplication on rationals in kernel-evaluable form; equal to ordinary
multiplication by qmul_eq. -/
def qmul (a b : ℚ) : ℚ := mkRat (a.num * b.num) (a.den * b.den)

/-- Division on rationals in kernel-evaluable form; equal to ordinary
division by qdiv_eq. -/
def qdiv (a b : ℚ) : ℚ := qmul a (Rat.divInt b.den b.num)

/-- Model of a pandas float cell: an exact rational or one of the IEEE special
values NaN, positive infinity, negative infinity. -/
inductive Val where
  | num (q : ℚ)
  | nan
  | inf
  | negInf
deriving DecidableEq, Repr

namespace Val

/-- IEEE-style addition on modelled floats: NaN propagates, opposite
infinities give NaN. -/
def add : Val → Val → Val
  | nan, _ => nan
  | num _, nan => nan
  | inf, nan => nan
  | negInf, nan => nan
  | num a, num b => num (qadd a b)
  | num _, inf => inf
  | num _, negInf => negInf
  | inf, num _ => inf
  | inf, inf => inf
  | inf, negInf => nan
  | negInf, num _ => negInf
  | negInf, inf => nan
  | negInf, negInf => negInf

/-- IEEE-style negation. -/
def neg : Val → Val
  | num a => num (-a)
  | nan => nan
  | inf => negInf
  | negInf => inf

/-- IEEE-style subtraction, defined as addition of the negation. -/
def sub (a b : Val) : Val := add a (neg b)

/-- IEEE-style multiplication: NaN propagates, infinity times zero is NaN. -/
def mul : Val → Val → Val
  | nan, _ => nan
  | num _, nan => nan
  | inf, nan => nan
  | negInf, nan => nan
  | num a, num b => num (qmul a b)
  | num a, inf => if 0 < a then inf else if a < 0 then negInf else nan
  | num a, negInf => if 0 < a then negInf else if a < 0 then inf else nan
  | inf, num b => if 0 < b then inf else if b < 0 then negInf else nan
  | negInf, num b => if 0 < b then negInf else if b < 0 then inf else nan
  | inf, inf => inf
  | inf, negInf => negInf
  | negInf, inf => negInf
  | negInf, negInf => inf

/-- IEEE-style division: NaN propagates, a nonzero finite number divided by
zero gives a signed infinity, zero by zero gives NaN, a finite number divided
by an infinity gives zero, infinity by infinity gives NaN. -/
def div : Val → Val → Val
  | nan, _ => nan
  | num _, nan => nan
  | inf, nan => nan
  | negInf, nan => nan
  | num a, num b =>
      if b = 0 then (if a = 0 then nan else if 0 < a then inf else negInf)
      else num (qdiv a b)
  | num _, inf => num 0
  | num _, negInf => num 0
  | inf, num b => if b < 0 then negInf else inf
  | negInf, num b => if b < 0 then inf else negInf
  | inf, inf => nan
  | inf, negInf => nan
  | negInf, inf => nan
  | negInf, negInf => nan

end Val

/-- Model of the pandas Series.replace(0, np.nan) idiom used at lines 109,
111, 112, 115 and 200 of src/Food_waste.py: an exact zero becomes NaN, every
other value is unchanged. -/
def replaceZeroNan : Val → Val
  | Val.num a => if a = 0 then Val.nan else Val.num a
  | v => v

/-- Model of lines 118-120 of src/Food_waste.py on one value: replace
positive and negative infinity with NaN, then fill NaN with 0.  Composed,
every non-finite value becomes 0 and finite values are unchanged. -/
def sanitizeVal : Val → Val
  | Val.num a => Val.num a
  | _ => Val.num 0

/-- A cell of the modelled DataFrame: a raw string, an integer (as pandas
reads clean integer columns such as Year), or a modelled float. -/
inductive Cell where
  | str (s : String)
  | int (z : Int)
  | num (v : Val)
deriving DecidableEq, Repr

/-- A row is an association list from column name to cell. -/
abbrev Row := List (String × Cell)

/-- A DataFrame: column names plus rows. -/
structure DF where
  cols : List String
  rows : List Row
deriving DecidableEq, Repr

/-- First cell stored under a column name in a row, as pandas row access. -/
def lookupCell (c : String) : Row → Option Cell
  | [] => none
  | (k, v) :: t => if k = c then some v else lookupCell c t

/-- Column assignment on one row: overwrite the first cell stored under the
name if present, otherwise append a new cell, as pandas column assignment. -/
def setCell : Row → String → Cell → Row
  | [], c, v => [(c, v)]
  | (k, w) :: t, c, v => if k = c then (c, v) :: t else (k, w) :: setCell t c v

/-- Digits of a decimal literal read as a natural number. -/
def natOfDigits (l : List Char) : Nat :=
  l.foldl (fun n c => 10 * n + (c.toNat - 48)) 0

/-- Model of the float parser behind pd.to_numeric(errors=coerce) on the
already-cleaned string: optional sign, then digits with at most one decimal
point and at least one digit; anything else fails. -/
def parseNum (l : List Char) : Option ℚ :=
  let core : List Char → Option ℚ := fun l₀ =>
    let ip := l₀.takeWhile Char.isDigit
    let rest := l₀.dropWhile Char.isDigit
    match rest with
    | [] => if ip.isEmpty then none else some ((natOfDigits ip : ℚ))
    | '.' :: fp =>
        if fp.all Char.isDigit && !(ip.isEmpty && fp.isEmpty) then
          some (qadd (natOfDigits ip : ℚ) (mkRat (natOfDigits fp) (10 ^ fp.length)))
        else none
    | _ => none
  match l with
  | '-' :: t => (core t).map (fun q => -q)
  | '+' :: t => core t
  | _ => core l

/-- Model of line 88 of src/Food_waste.py: remove every comma and every space
character from the string. -/
def stripCS (s : String) : String :=
  String.mk (s.data.filter (fun c => !(c == ',' || c == ' ')))

/-- Model of lines 88-89 of src/Food_waste.py on one string cell: clean the
string, then coerce to a float, unparseable values becoming NaN (null). -/
def coerceStr (s : String) : Val :=
  match parseNum (stripCS s).data with
  | some q => Val.num q
  | none => Val.nan

/-- Coercion of one cell, modelling astype(str) followed by cleaning and
pd.to_numeric: string representations of floats and integers round-trip
exactly, so already-numeric cells are unchanged (integers become floats). -/
def coerceCell : Cell → Cell
  | Cell.str s => Cell.num (coerceStr s)
  | Cell.int z => Cell.num (Val.num (z : ℚ))
  | Cell.num v => Cell.num v

/-- The rename dictionary of lines 74-82 of src/Food_waste.py, as a function
on one column name: the seven literal raw headers are replaced, every other
name is unchanged. -/
def renameName (s : String) : String :=
  if s = "Begin month\ninventory" then "begin_month_inventory"
  else if s = "Production" then "production"
  else if s = "Domestic" then "domestic"
  else if s = "Export" then "export"
  else if s = "Month-end \ninventory" then "month_end_inventory"
  else if s = "Shipment value\n(thousand baht)" then "shipment_value_thousand_baht"
  else if s = "Capacity" then "capacity"
  else s

/-- Rename the keys of one row. -/
def renameRow (r : Row) : Row :=
  r.map (fun kv => (renameName kv.1, kv.2))

/-- Model of df.rename at lines 74-82: rename column names and row keys. -/
def renameDF (d : DF) : DF :=
  ⟨d.cols.map renameName, d.rows.map renameRow⟩

/-- The columns coerced by the loop at lines 85-89 of src/Food_waste.py, in
loop order. -/
def numericTargets : List String :=
  ["begin_month_inventory", "production", "domestic", "export",
   "month_end_inventory", "shipment_value_thousand_baht", "capacity"]

/-- The seven numeric columns in the order they are first accessed by the
derived-metric block at lines 100-116 of src/Food_waste.py. -/
def requiredCols : List String :=
  ["begin_month_inventory", "production", "domestic", "export",
   "month_end_inventory", "capacity", "shipment_value_thousand_baht"]

/-- Coerce every cell stored under one column name in a row. -/
def updateCol (c : String) (r : Row) : Row :=
  r.map (fun kv => if kv.1 = c then (kv.1, coerceCell kv.2) else kv)

/-- The coercion loop of lines 85-89 on one row: for each listed column name
present in the table, coerce the cells stored under it. -/
def coerceRowWith (cols : List String) : List String → Row → Row
  | [], r => r
  | c :: t, r => coerceRowWith cols t (if cols.contains c then updateCol c r else r)

/-- Model of the coercion loop of lines 85-89 of src/Food_waste.py. -/
def coerceDF (d : DF) : DF :=
  ⟨d.cols, d.rows.map (coerceRowWith d.cols numericTargets)⟩

/-- The product test of line 93: a string Product cell is kept when it is one
of the selected products; any other cell is never selected, as pandas isin. -/
def productSel (sel : List String) (r : Row) : Bool :=
  match lookupCell "Product" r with
  | some (Cell.str p) => sel.contains p
  | _ => false

/-- The Year cell of a row as an integer; a missing or non-integer Year cell
raises in pandas when compared at lines 94-95. -/
def yearOf (r : Row) : Except String Int :=
  match lookupCell "Year" r with
  | some (Cell.int y) => Except.ok y
  | some _ => Except.error "TypeError: Year"
  | none => Except.error "KeyError: Year"

/-- The row predicate of lines 92-96: product selected and year within the
inclusive bounds.  Both year comparisons are evaluated unconditionally, as
the pandas elementwise conjunction does. -/
def rowPasses (sel : List String) (yr : Int × Int) (r : Row) : Except String Bool := do
  let y ← yearOf r
  return productSel sel r && (decide (yr.1 ≤ y) && decide (y ≤ yr.2))

/-- Effectful filter over rows, propagating the first raised error. -/
def filterE (p : Row → Except String Bool) : List Row → Except String (List Row)
  | [] => Except.ok []
  | r :: t => do
      let b ← p r
      let t' ← filterE p t
      return if b then r :: t' else t'

/-- Effectful map over rows, propagating the first raised error. -/
def mapE (f : Row → Except String Row) : List Row → Except String (List Row)
  | [] => Except.ok []
  | r :: t => do
      let r' ← f r
      let t' ← mapE f t
      return r' :: t'

/-- Numeric value of a row at a column: raises on a missing column (KeyError)
or a non-coerced cell. -/
def getVal (c : String) (r : Row) : Except String Val :=
  match lookupCell c r with
  | some (Cell.num v) => Except.ok v
  | some _ => Except.error ("TypeError: " ++ c)
  | none => Except.error ("KeyError: " ++ c)

/-- The derived-metric block of lines 100-116 of src/Food_waste.py on one
row: read the seven coerced inputs, compute the eight derived values with the
zero-denominator replace(0, NaN) guards, and assign the eight columns in
source order. -/
def deriveRow (r : Row) : Except String Row := do
  let bi ← getVal "begin_month_inventory" r
  let prod ← getVal "production" r
  let dom ← getVal "domestic" r
  let expv ← getVal "export" r
  let ei ← getVal "month_end_inventory" r
  let cap ← getVal "capacity" r
  let ship ← getVal "shipment_value_thousand_baht" r
  let waste := (((bi.add prod).sub dom).sub expv).sub ei
  let total := dom.add expv
  let wasteRate := waste.div (replaceZeroNan prod)
  let avgInv := (bi.add ei).div (Val.num 2)
  let invTurn := dom.div (replaceZeroNan avgInv)
  let capUtil := prod.div (replaceZeroNan cap)
  let vpu := ship.div (replaceZeroNan total)
  let wasteValue := waste.mul vpu
  return setCell (setCell (setCell (setCell (setCell (setCell (setCell
    (setCell r "waste" (Cell.num waste)) "total" (Cell.num total))
    "waste_rate" (Cell.num wasteRate)) "avg_inventory" (Cell.num avgInv))
    "inventory_turnover" (Cell.num invTurn)) "capacity_utilization"
    (Cell.num capUtil)) "value_per_unit" (Cell.num vpu))
    "waste_value" (Cell.num wasteValue)

/-- Sanitization of one cell per lines 118-120: non-finite floats become 0. -/
def sanitizeCell : Cell → Cell
  | Cell.num v => Cell.num (sanitizeVal v)
  | c => c

/-- Sanitization of a whole row per lines 118-120. -/
def sanitizeRow (r : Row) : Row :=
  r.map (fun kv => (kv.1, sanitizeCell kv.2))

/-- The eight derived column names, in assignment order. -/
def derivedNames : List String :=
  ["waste", "total", "waste_rate", "avg_inventory", "inventory_turnover",
   "capacity_utilization", "value_per_unit", "waste_value"]

/-- Append each listed name to the column list unless already present, as
pandas column assignment extends the column index. -/
def addNames (cs : List String) : List String → List String
  | [] => cs
  | n :: t => addNames (if cs.contains n then cs else cs ++ [n]) t

/-- First listed column name missing from the table, modelling the first
KeyError raised by the derived-metric block. -/
def firstMissing (cols : List String) : List String → Option String
  | [] => none
  | c :: t => if cols.contains c then firstMissing cols t else some c

/-- The transformation pipeline of src/Food_waste.py lines 52-120: check that
the Product and Year columns exist (accessed at lines 54 and 60 before
anything else), rename (74-82), coerce (85-89), filter (92-96), check the
seven numeric columns exist (first accesses at lines 100-116), compute the
derived metrics per row (100-116), sanitize (118-120). -/
def derive (df : DF) (sel : List String) (yr : Int × Int) : Except String DF :=
  if ¬ df.cols.contains "Product" then Except.error "KeyError: Product"
  else if ¬ df.cols.contains "Year" then Except.error "KeyError: Year"
  else
    let df1 := coerceDF (renameDF df)
    do
      let kept ← filterE (rowPasses sel yr) df1.rows
      match firstMissing df1.cols requiredCols with
      | some c => Except.error ("KeyError: " ++ c)
      | none => do
          let rows2 ← mapE deriveRow kept
          return ⟨addNames df1.cols derivedNames, rows2.map sanitizeRow⟩

/-- The two post-sanitization columns added at lines 200 and 256 of
src/Food_waste.py, on one row: days_of_supply and production_demand_gap.
No sanitization pass follows them. -/
def addExtraRow (r : Row) : Except String Row := do
  let ei ← getVal "month_end_inventory" r
  let dom ← getVal "domestic" r
  let prod ← getVal "production" r
  let dos := (ei.div (replaceZeroNan dom)).mul (Val.num 30)
  let gap := prod.sub dom
  return setCell (setCell r "days_of_supply" (Cell.num dos))
    "production_demand_gap" (Cell.num gap)

/-- The state of df_filtered at the download button (lines 361-366): the
derived table with the two extra columns of lines 200 and 256 appended, and
no further sanitization. -/
def addExtras (d : DF) : Except String DF :=
  match firstMissing d.cols ["month_end_inventory", "domestic", "production"] with
  | some c => Except.error ("KeyError: " ++ c)
  | none => do
      let rows ← mapE addExtraRow d.rows
      return ⟨addNames d.cols ["days_of_supply", "production_demand_gap"], rows⟩

/-- The seven raw header literals that the rename dictionary of lines 74-82
binds to roles. -/
def renameKeys : List String :=
  ["Begin month\ninventory", "Production", "Domestic", "Export",
   "Month-end \ninventory", "Shipment value\n(thousand baht)", "Capacity"]

/-- The row produced by the derived-metric block from a row and its seven
coerced numeric inputs, spelled out; deriveRow returns exactly this row when
all seven inputs resolve. -/
def derivedRowOf (r : Row) (bi prod dom expv ei cap ship : Val) : Row :=
  let waste := (((bi.add prod).sub dom).sub expv).sub ei
  let total := dom.add expv
  let wasteRate := waste.div (replaceZeroNan prod)
  let avgInv := (bi.add ei).div (Val.num 2)
  let invTurn := dom.div (replaceZeroNan avgInv)
  let capUtil := prod.div (replaceZeroNan cap)
  let vpu := ship.div (replaceZeroNan total)
  let wasteValue := waste.mul vpu
  setCell (setCell (setCell (setCell (setCell (setCell (setCell
    (setCell r "waste" (Cell.num waste)) "total" (Cell.num total))
    "waste_rate" (Cell.num wasteRate)) "avg_inventory" (Cell.num avgInv))
    "inventory_turnover" (Cell.num invTurn)) "capacity_utilization"
    (Cell.num capUtil)) "value_per_unit" (Cell.num vpu))
    "waste_value" (Cell.num wasteValue)

/-- Every key of the row is a fixed point of the rename map. -/
def keysFixed (r : Row) : Prop :=
  ∀ kv ∈ r, renameName kv.1 = kv.1

/-- Every cell of the row stored under the given column name is a float
cell. -/
def numCellsAt (c : String) (r : Row) : Prop :=
  ∀ kv ∈ r, kv.1 = c → ∃ v, kv.2 = Cell.num v

/-- Whether an optional cell is a finite float cell. -/
def cellFinite : Option Cell → Bool
  | some (Cell.num (Val.num _)) => true
  | _ => false

/-- A well-formed upload row matching the raw headers of the dataset that
src/Food_waste.py expects, with the worked numbers of the specification. -/
def rowEx : Row :=
  [("Product", Cell.str "Apple"), ("Year", Cell.int 2020), ("Month", Cell.int 1),
   ("Begin month\ninventory", Cell.str "100"),
   ("Production", Cell.str "500"),
   ("Domestic", Cell.str "400"),
   ("Export", Cell.str "50"),
   ("Month-end \ninventory", Cell.str "80"),
   ("Shipment value\n(thousand baht)", Cell.str "1,000"),
   ("Capacity", Cell.str "600")]

/-- A well-formed upload table with one row. -/
def dfEx : DF :=
  ⟨["Product", "Year", "Month", "Begin month\ninventory", "Production",
    "Domestic", "Export", "Month-end \ninventory",
    "Shipment value\n(thousand baht)", "Capacity"],
   [rowEx]⟩

/-- The normalized table derived from dfEx (empty table on error, which does
not occur). -/
def outEx : DF :=
  match derive dfEx ["Apple"] (2020, 2020) with
  | Except.ok out => out
  | Except.error _ => ⟨[], []⟩

/-- The first row of outEx. -/
def outExRow : Row := outEx.rows.headD []

/-- An already-coerced row as it stands right before the derived-metric
block, with the worked numbers of the specification. -/
def rnEx : Row :=
  [("Product", Cell.str "Apple"), ("Year", Cell.int 2020), ("Month", Cell.int 1),
   ("begin_month_inventory", Cell.num (Val.num 100)),
   ("production", Cell.num (Val.num 500)),
   ("domestic", Cell.num (Val.num 400)),
   ("export", Cell.num (Val.num 50)),
   ("month_end_inventory", Cell.num (Val.num 80)),
   ("shipment_value_thousand_baht", Cell.num (Val.num 1000)),
   ("capacity", Cell.num (Val.num 600))]

/-- The result of the derived-metric block on rnEx. -/
def rnExOut : Row :=
  match deriveRow rnEx with
  | Except.ok r => r
  | Except.error _ => []

/-- An already-coerced row whose production is zero and whose other inputs
give a nonzero waste of 70, as in the specification example. -/
def rnZeroProd : Row :=
  [("Product", Cell.str "Apple"), ("Year", Cell.int 2020),
   ("begin_month_inventory", Cell.num (Val.num 100)),
   ("production", Cell.num (Val.num 0)),
   ("domestic", Cell.num (Val.num 20)),
   ("export", Cell.num (Val.num 5)),
   ("month_end_inventory", Cell.num (Val.num 5)),
   ("shipment_value_thousand_baht", Cell.num (Val.num 1000)),
   ("capacity", Cell.num (Val.num 600))]

/-- The result of the derived-metric block on rnZeroProd. -/
def rnZeroProdOut : Row :=
  match deriveRow rnZeroProd with
  | Except.ok r => r
  | Except.error _ => []

/-- An upload table whose beginning-inventory value is unparseable, so its
coerced value is null; every other numeric field parses. -/
def dfNull : DF :=
  ⟨["Product", "Year", "Month", "Begin month\ninventory", "Production",
    "Domestic", "Export", "Month-end \ninventory",
    "Shipment value\n(thousand baht)", "Capacity"],
   [[("Product", Cell.str "A"), ("Year", Cell.int 2020), ("Month", Cell.int 1),
     ("Begin month\ninventory", Cell.str "abc"),
     ("Production", Cell.str "500"),
     ("Domestic", Cell.str "400"),
     ("Export", Cell.str "50"),
     ("Month-end \ninventory", Cell.str "80"),
     ("Shipment value\n(thousand baht)", Cell.str "1000"),
     ("Capacity", Cell.str "600")]]⟩

/-- The table dfNull after coercion, before filtering. -/
def dfNullCoerced : DF := coerceDF (renameDF dfNull)

/-- The normalized table derived from dfNull. -/
def outNull : DF :=
  match derive dfNull ["A"] (2020, 2020) with
  | Except.ok out => out
  | Except.error _ => ⟨[], []⟩

/-- The first row of outNull. -/
def outNullRow : Row := outNull.rows.headD []

/-- An upload table lacking the beginning-inventory column entirely. -/
def dfMissing : DF :=
  ⟨["Product", "Year", "Production", "Domestic", "Export",
    "Month-end \ninventory", "Shipment value\n(thousand baht)", "Capacity"],
   [[("Product", Cell.str "A"), ("Year", Cell.int 2020),
     ("Production", Cell.str "500"), ("Domestic", Cell.str "400"),
     ("Export", Cell.str "50"), ("Month-end \ninventory", Cell.str "80"),
     ("Shipment value\n(thousand baht)", Cell.str "1000"),
     ("Capacity", Cell.str "600")]]⟩

/-- An upload table whose production header carries a trailing space, so it
differs from the expected header only in surrounding whitespace. -/
def dfSpace : DF :=
  ⟨["Product", "Year", "Production "],
   [[("Product", Cell.str "A"), ("Year", Cell.int 2020),
     ("Production ", Cell.str "500")]]⟩

/-- An upload table with a zero domestic value. -/
def dfZeroDom : DF :=
  ⟨["Product", "Year", "Month", "Begin month\ninventory", "Production",
    "Domestic", "Export", "Month-end \ninventory",
    "Shipment value\n(thousand baht)", "Capacity"],
   [[("Product", Cell.str "A"), ("Year", Cell.int 2020), ("Month", Cell.int 1),
     ("Begin month\ninventory", Cell.str "100"),
     ("Production", Cell.str "500"),
     ("Domestic", Cell.str "0"),
     ("Export", Cell.str "50"),
     ("Month-end \ninventory", Cell.str "80"),
     ("Shipment value\n(thousand baht)", Cell.str "1000"),
     ("Capacity", Cell.str "600")]]⟩

/-- The normalized table derived from dfZeroDom. -/
def outZeroDom : DF :=
  match derive dfZeroDom ["A"] (2020, 2020) with
  | Except.ok out => out
  | Except.error _ => ⟨[], []⟩

/-- The table offered for download from dfZeroDom, with the two
post-sanitization columns appended. -/
def extZeroDom : DF :=
  match addExtras outZeroDom with
  | Except.ok out => out
  | Except.error _ => ⟨[], []⟩

/-- The first row of extZeroDom. -/
def extZeroDomRow : Row := extZeroDom.rows.headD []

/-- The table obtained by running the pipeline a second time on outNull,
with all of its products selected and a year range spanning its years. -/
def outNull2 : DF :=
  match derive outNull ["A"] (2015, 2025) with
  | Except.ok out => out
  | Except.error _ => ⟨[], []⟩

/-! Basic lemmas about rows, cells and the effectful combinators. -/

theorem qadd_eq (a b : ℚ) : qadd a b = a + b := (Rat.add_def' a b).symm

theorem qsub_eq (a b : ℚ) : qsub a b = a - b := (Rat.sub_def' a b).symm

theorem qmul_eq (a b : ℚ) : qmul a b = a * b := by
  rw [Rat.mul_def, Rat.normalize_eq_mkRat]
  rfl

theorem qdiv_eq (a b : ℚ) : qdiv a b = a / b := by
  unfold qdiv
  rw [qmul_eq, ← Rat.inv_def, Rat.div_def]

theorem lookup_setCell_self (r : Row) (c : String) (v : Cell) :
    lookupCell c (setCell r c v) = some v := by
  induction r with
  | nil => simp [setCell, lookupCell]
  | cons kv t ih =>
      obtain ⟨k, w⟩ := kv
      by_cases h : k = c
      · simp [setCell, lookupCell, h]
      · simp [setCell, lookupCell, h, ih]

theorem lookup_setCell_ne (r : Row) (c c' : String) (v : Cell) (h : c' ≠ c) :
    lookupCell c' (setCell r c v) = lookupCell c' r := by
  have hcc : ¬ c = c' := fun e => h e.symm
  induction r with
  | nil => simp [setCell, lookupCell, hcc]
  | cons kv t ih =>
      obtain ⟨k, w⟩ := kv
      by_cases hk : k = c
      · subst hk
        simp [setCell, lookupCell, hcc]
      · simp [setCell, lookupCell, hk, ih]

theorem setCell_fix (r : Row) (c : String) (v : Cell)
    (h : lookupCell c r = some v) : setCell r c v = r := by
  induction r with
  | nil => simp [lookupCell] at h
  | cons kv t ih =>
      obtain ⟨k, w⟩ := kv
      by_cases hk : k = c
      · subst hk
        simp [lookupCell] at h
        simp [setCell, h]
      · simp [lookupCell, hk] at h
        simp [setCell, hk, ih h]

theorem map_fix {α : Type} (f : α → α) (l : List α) (h : ∀ x ∈ l, f x = x) :
    l.map f = l := by
  induction l with
  | nil => rfl
  | cons x t ih =>
      simp only [List.map_cons]
      rw [h x (List.mem_cons_self x t), ih (fun y hy => h y (List.mem_cons_of_mem x hy))]

theorem lookup_sanitizeRow (r : Row) (c : String) :
    lookupCell c (sanitizeRow r) = (lookupCell c r).map sanitizeCell := by
  induction r with
  | nil => simp [sanitizeRow, lookupCell]
  | cons kv t ih =>
      obtain ⟨k, w⟩ := kv
      by_cases h : k = c
      · simp [sanitizeRow, lookupCell, h]
      · simp [sanitizeRow, lookupCell, h] at ih ⊢
        exact ih

theorem sanitizeCell_idem (c : Cell) : sanitizeCell (sanitizeCell c) = sanitizeCell c := by
  cases c with
  | num v => cases v <;> simp [sanitizeCell, sanitizeVal]
  | str s => rfl
  | int z => rfl

theorem sanitizeRow_idem (r : Row) : sanitizeRow (sanitizeRow r) = sanitizeRow r := by
  unfold sanitizeRow
  rw [List.map_map]
  apply List.map_congr_left
  intro kv _
  simp [sanitizeCell_idem]

theorem sanitizeRow_setCell (r : Row) (c : String) (v : Cell) :
    sanitizeRow (setCell r c v) = setCell (sanitizeRow r) c (sanitizeCell v) := by
  induction r with
  | nil => simp [sanitizeRow, setCell]
  | cons kv t ih =>
      obtain ⟨k, w⟩ := kv
      by_cases h : k = c
      · simp [sanitizeRow, setCell, h]
      · simp [sanitizeRow, setCell, h] at ih ⊢
        exact ih

theorem ebind_ok {α β : Type} (a : α) (f : α → Except String β) :
    (Except.ok a >>= f) = f a := rfl

theorem ebind_error {α β : Type} (e : String) (f : α → Except String β) :
    ((Except.error e : Except String α) >>= f) = Except.error e := rfl

theorem epure_eq {α : Type} (a : α) : (pure a : Except String α) = Except.ok a := rfl

theorem filterE_subset (p : Row → Except String Bool) (rows kept : List Row)
    (h : filterE p rows = Except.ok kept) : ∀ r ∈ kept, r ∈ rows := by
  induction rows generalizing kept with
  | nil =>
      simp [filterE] at h
      subst h
      intro r hr
      simp at hr
  | cons r₀ t ih =>
      simp only [filterE] at h
      cases hp : p r₀ with
      | error e => rw [hp, ebind_error] at h; exact absurd h (by simp)
      | ok b =>
          rw [hp, ebind_ok] at h
          cases ht : filterE p t with
          | error e => rw [ht, ebind_error] at h; exact absurd h (by simp)
          | ok t' =>
              rw [ht, ebind_ok, epure_eq] at h
              have hkept : kept = if b then r₀ :: t' else t' := by
                cases h; rfl
              subst hkept
              intro r hr
              cases b with
              | true =>
                  simp at hr
                  cases hr with
                  | inl hr => simp [hr]
                  | inr hr => exact List.mem_cons_of_mem r₀ (ih t' ht r hr)
              | false =>
                  simp at hr
                  exact List.mem_cons_of_mem r₀ (ih t' ht r hr)

theorem filterE_mem_iff (p : Row → Except String Bool) (rows kept : List Row)
    (h : filterE p rows = Except.ok kept) (r : Row) :
    r ∈ kept ↔ (r ∈ rows ∧ p r = Except.ok true) := by
  induction rows generalizing kept with
  | nil =>
      simp [filterE] at h
      subst h
      simp
  | cons r₀ t ih =>
      simp only [filterE] at h
      cases hp : p r₀ with
      | error e => rw [hp, ebind_error] at h; exact absurd h (by simp)
      | ok b =>
          rw [hp, ebind_ok] at h
          cases ht : filterE p t with
          | error e => rw [ht, ebind_error] at h; exact absurd h (by simp)
          | ok t' =>
              rw [ht, ebind_ok, epure_eq] at h
              have hkept : kept = if b then r₀ :: t' else t' := by
                cases h; rfl
              subst hkept
              constructor
              · intro hr
                cases b with
                | true =>
                    simp at hr
                    cases hr with
                    | inl hr => subst hr; exact ⟨List.mem_cons_self _ t, hp⟩
                    | inr hr =>
                        have := (ih t' ht).mp hr
                        exact ⟨List.mem_cons_of_mem r₀ this.1, this.2⟩
                | false =>
                    simp at hr
                    have := (ih t' ht).mp hr
                    exact ⟨List.mem_cons_of_mem r₀ this.1, this.2⟩
              · rintro ⟨hmem, hpr⟩
                rcases List.mem_cons.mp hmem with rfl | hmem'
                · rw [hpr] at hp
                  cases hp
                  simp
                · have hr' : r ∈ t' := (ih t' ht).mpr ⟨hmem', hpr⟩
                  cases b <;> simp [hr']

theorem filterE_all_true (p : Row → Except String Bool) (rows : List Row)
    (h : ∀ r ∈ rows, p r = Except.ok true) : filterE p rows = Except.ok rows := by
  induction rows with
  | nil => rfl
  | cons r₀ t ih =>
      simp only [filterE]
      rw [h r₀ (List.mem_cons_self r₀ t), ebind_ok,
        ih (fun r hr => h r (List.mem_cons_of_mem r₀ hr)), ebind_ok, epure_eq]
      simp

theorem filterE_ok_of_ok (p p' : Row → Except String Bool) (rows kept : List Row)
    (h : filterE p rows = Except.ok kept)
    (hpp : ∀ r ∈ rows, ∀ b, p r = Except.ok b → p' r = Except.ok false) :
    filterE p' rows = Except.ok [] := by
  induction rows generalizing kept with
  | nil => rfl
  | cons r₀ t ih =>
      simp only [filterE] at h ⊢
      cases hp : p r₀ with
      | error e => rw [hp, ebind_error] at h; exact absurd h (by simp)
      | ok b =>
          rw [hp, ebind_ok] at h
          cases ht : filterE p t with
          | error e => rw [ht, ebind_error] at h; exact absurd h (by simp)
          | ok t' =>
              rw [hpp r₀ (List.mem_cons_self r₀ t) b hp, ebind_ok,
                ih t' ht (fun r hr b' hb' => hpp r (List.mem_cons_of_mem r₀ hr) b' hb'),
                ebind_ok, epure_eq]
              simp

theorem mapE_mem (f : Row → Except String Row) (l l' : List Row)
    (h : mapE f l = Except.ok l') : ∀ y ∈ l', ∃ x ∈ l, f x = Except.ok y := by
  induction l generalizing l' with
  | nil =>
      simp [mapE] at h
      subst h
      simp
  | cons x t ih =>
      simp only [mapE] at h
      cases hx : f x with
      | error e => rw [hx, ebind_error] at h; exact absurd h (by simp)
      | ok y₀ =>
          rw [hx, ebind_ok] at h
          cases ht : mapE f t with
          | error e => rw [ht, ebind_error] at h; exact absurd h (by simp)
          | ok t' =>
              rw [ht, ebind_ok, epure_eq] at h
              have hl' : l' = y₀ :: t' := by cases h; rfl
              subst hl'
              intro y hy
              rcases List.mem_cons.mp hy with rfl | hy'
              · exact ⟨x, List.mem_cons_self x t, hx⟩
              · obtain ⟨x', hx', hfx'⟩ := ih t' ht y hy'
                exact ⟨x', List.mem_cons_of_mem x hx', hfx'⟩

theorem mapE_pointwise (f : Row → Except String Row) (g : Row → Row) (l : List Row)
    (h : ∀ x ∈ l, ∃ y, f x = Except.ok y ∧ g y = x) :
    ∃ l', mapE f l = Except.ok l' ∧ l'.map g = l := by
  induction l with
  | nil => exact ⟨[], rfl, rfl⟩
  | cons x t ih =>
      obtain ⟨y, hy, hgy⟩ := h x (List.mem_cons_self x t)
      obtain ⟨t', ht', hgt'⟩ := ih (fun x' hx' => h x' (List.mem_cons_of_mem x hx'))
      refine ⟨y :: t', ?_, ?_⟩
      · simp only [mapE]
        rw [hy, ebind_ok, ht', ebind_ok, epure_eq]
      · simp [hgy, hgt']

/-! Lemmas about the rename map and the column bookkeeping. -/

theorem renameName_eq_self (s : String) (h : s ∉ renameKeys) : renameName s = s := by
  have h1 : ¬ s = "Begin month\ninventory" := fun e => h (by rw [e]; simp [renameKeys])
  have h2 : ¬ s = "Production" := fun e => h (by rw [e]; simp [renameKeys])
  have h3 : ¬ s = "Domestic" := fun e => h (by rw [e]; simp [renameKeys])
  have h4 : ¬ s = "Export" := fun e => h (by rw [e]; simp [renameKeys])
  have h5 : ¬ s = "Month-end \ninventory" := fun e => h (by rw [e]; simp [renameKeys])
  have h6 : ¬ s = "Shipment value\n(thousand baht)" := fun e => h (by rw [e]; simp [renameKeys])
  have h7 : ¬ s = "Capacity" := fun e => h (by rw [e]; simp [renameKeys])
  simp [renameName, h1, h2, h3, h4, h5, h6, h7]

theorem renameName_idem (s : String) : renameName (renameName s) = renameName s := by
  by_cases h : s ∈ renameKeys
  · simp [renameKeys] at h
    rcases h with rfl | rfl | rfl | rfl | rfl | rfl | rfl <;> decide
  · rw [renameName_eq_self s h]
    exact renameName_eq_self s h

theorem keysFixed_renameRow (r : Row) : keysFixed (renameRow r) := by
  intro kv hkv
  simp only [renameRow] at hkv
  obtain ⟨kw, _, heq⟩ := List.mem_map.mp hkv
  rw [← heq]
  exact renameName_idem kw.1

theorem renameRow_fix (r : Row) (h : keysFixed r) : renameRow r = r := by
  unfold renameRow
  apply map_fix
  intro kv hkv
  have := h kv hkv
  cases kv
  simp at this ⊢
  exact this

theorem keysFixed_updateCol (c : String) (r : Row) (h : keysFixed r) :
    keysFixed (updateCol c r) := by
  intro kv hkv
  simp only [updateCol] at hkv
  obtain ⟨kw, hkw, heq⟩ := List.mem_map.mp hkv
  by_cases hc : kw.1 = c
  · rw [if_pos hc] at heq
    rw [← heq]
    exact h kw hkw
  · rw [if_neg hc] at heq
    rw [← heq]
    exact h kw hkw

theorem keysFixed_coerceRowWith (cols names : List String) (r : Row)
    (h : keysFixed r) : keysFixed (coerceRowWith cols names r) := by
  induction names generalizing r with
  | nil => exact h
  | cons c t ih =>
      simp only [coerceRowWith]
      by_cases hc : cols.contains c
      · rw [if_pos hc]
        exact ih _ (keysFixed_updateCol c r h)
      · rw [if_neg hc]
        exact ih _ h

theorem keysFixed_setCell (r : Row) (c : String) (v : Cell)
    (hr : keysFixed r) (hc : renameName c = c) : keysFixed (setCell r c v) := by
  induction r with
  | nil =>
      intro kv hkv
      simp [setCell] at hkv
      rw [hkv]
      exact hc
  | cons kw t ih =>
      obtain ⟨k, w⟩ := kw
      intro kv hkv
      by_cases hk : k = c
      · simp [setCell, hk] at hkv
        rcases hkv with rfl | hkv
        · exact hc
        · exact hr kv (List.mem_cons_of_mem _ hkv)
      · simp [setCell, hk] at hkv
        rcases hkv with rfl | hkv
        · exact hr (k, w) (List.mem_cons_self _ _)
        · exact ih (fun kv' hkv' => hr kv' (List.mem_cons_of_mem _ hkv')) kv hkv

theorem keysFixed_sanitizeRow (r : Row) (h : keysFixed r) :
    keysFixed (sanitizeRow r) := by
  intro kv hkv
  simp only [sanitizeRow] at hkv
  obtain ⟨kw, hkw, heq⟩ := List.mem_map.mp hkv
  rw [← heq]
  exact h kw hkw

theorem mem_addNames_of_mem (cs : List String) (ns : List String) (x : String)
    (h : x ∈ cs) : x ∈ addNames cs ns := by
  induction ns generalizing cs with
  | nil => exact h
  | cons n t ih =>
      simp only [addNames]
      by_cases hn : cs.contains n
      · rw [if_pos hn]; exact ih cs h
      · rw [if_neg hn]
        exact ih _ (List.mem_append_left _ h)

theorem mem_addNames (cs ns : List String) (x : String)
    (h : x ∈ addNames cs ns) : x ∈ cs ∨ x ∈ ns := by
  induction ns generalizing cs with
  | nil => exact Or.inl h
  | cons n t ih =>
      simp only [addNames] at h
      by_cases hn : cs.contains n
      · rw [if_pos hn] at h
        rcases ih _ h with hx | hx
        · exact Or.inl hx
        · exact Or.inr (List.mem_cons_of_mem n hx)
      · rw [if_neg hn] at h
        rcases ih _ h with hx | hx
        · rcases List.mem_append.mp hx with hx' | hx'
          · exact Or.inl hx'
          · simp at hx'
            exact Or.inr (by simp [hx'])
        · exact Or.inr (List.mem_cons_of_mem n hx)

theorem mem_ns_addNames (cs ns : List String) (x : String) (h : x ∈ ns) :
    x ∈ addNames cs ns := by
  induction ns generalizing cs with
  | nil => simp at h
  | cons n t ih =>
      simp only [addNames]
      rcases List.mem_cons.mp h with rfl | hx
      · by_cases hn : cs.contains x
        · rw [if_pos hn]
          exact mem_addNames_of_mem _ _ _ (List.mem_of_elem_eq_true hn)
        · rw [if_neg hn]
          exact mem_addNames_of_mem _ _ _ (List.mem_append_right _ (by simp))
      · by_cases hn : cs.contains n
        · rw [if_pos hn]; exact ih _ hx
        · rw [if_neg hn]; exact ih _ hx

theorem addNames_fix (cs ns : List String) (h : ∀ n ∈ ns, n ∈ cs) :
    addNames cs ns = cs := by
  induction ns with
  | nil => rfl
  | cons n t ih =>
      simp only [addNames]
      have hn : cs.contains n = true := by
        have := h n (List.mem_cons_self n t)
        exact List.elem_eq_true_of_mem this
      rw [if_pos hn]
      exact ih (fun n' hn' => h n' (List.mem_cons_of_mem n hn'))

theorem firstMissing_none_iff (cols ns : List String) :
    firstMissing cols ns = none ↔ ∀ c ∈ ns, c ∈ cols := by
  induction ns with
  | nil => simp [firstMissing]
  | cons c t ih =>
      simp only [firstMissing]
      by_cases hc : cols.contains c
      · rw [if_pos hc]
        rw [ih]
        constructor
        · intro h c' hc'
          rcases List.mem_cons.mp hc' with rfl | hc''
          · exact List.mem_of_elem_eq_true hc
          · exact h c' hc''
        · intro h c' hc'
          exact h c' (List.mem_cons_of_mem c hc')
      · rw [if_neg hc]
        constructor
        · intro h; cases h
        · intro h
          exact absurd (List.elem_eq_true_of_mem (h c (List.mem_cons_self c t))) hc

/-! Lemmas about the derived-metric block on one row. -/

theorem deriveRow_eq (r : Row) (bi prod dom expv ei cap ship : Val)
    (h1 : getVal "begin_month_inventory" r = Except.ok bi)
    (h2 : getVal "production" r = Except.ok prod)
    (h3 : getVal "domestic" r = Except.ok dom)
    (h4 : getVal "export" r = Except.ok expv)
    (h5 : getVal "month_end_inventory" r = Except.ok ei)
    (h6 : getVal "capacity" r = Except.ok cap)
    (h7 : getVal "shipment_value_thousand_baht" r = Except.ok ship) :
    deriveRow r = Except.ok (derivedRowOf r bi prod dom expv ei cap ship) := by
  simp only [deriveRow, h1, h2, h3, h4, h5, h6, h7, ebind_ok, epure_eq]
  rfl

theorem deriveRow_ok_inv (r r' : Row) (h : deriveRow r = Except.ok r') :
    ∃ bi prod dom expv ei cap ship,
      getVal "begin_month_inventory" r = Except.ok bi ∧
      getVal "production" r = Except.ok prod ∧
      getVal "domestic" r = Except.ok dom ∧
      getVal "export" r = Except.ok expv ∧
      getVal "month_end_inventory" r = Except.ok ei ∧
      getVal "capacity" r = Except.ok cap ∧
      getVal "shipment_value_thousand_baht" r = Except.ok ship ∧
      r' = derivedRowOf r bi prod dom expv ei cap ship := by
  simp only [deriveRow] at h
  cases h1 : getVal "begin_month_inventory" r with
  | error e => rw [h1, ebind_error] at h; exact absurd h (by simp)
  | ok bi =>
  rw [h1, ebind_ok] at h
  cases h2 : getVal "production" r with
  | error e => rw [h2, ebind_error] at h; exact absurd h (by simp)
  | ok prod =>
  rw [h2, ebind_ok] at h
  cases h3 : getVal "domestic" r with
  | error e => rw [h3, ebind_error] at h; exact absurd h (by simp)
  | ok dom =>
  rw [h3, ebind_ok] at h
  cases h4 : getVal "export" r with
  | error e => rw [h4, ebind_error] at h; exact absurd h (by simp)
  | ok expv =>
  rw [h4, ebind_ok] at h
  cases h5 : getVal "month_end_inventory" r with
  | error e => rw [h5, ebind_error] at h; exact absurd h (by simp)
  | ok ei =>
  rw [h5, ebind_ok] at h
  cases h6 : getVal "capacity" r with
  | error e => rw [h6, ebind_error] at h; exact absurd h (by simp)
  | ok cap =>
  rw [h6, ebind_ok] at h
  cases h7 : getVal "shipment_value_thousand_baht" r with
  | error e => rw [h7, ebind_error] at h; exact absurd h (by simp)
  | ok ship =>
  rw [h7, ebind_ok, epure_eq] at h
  refine ⟨bi, prod, dom, expv, ei, cap, ship, rfl, rfl, rfl, rfl, rfl, rfl, rfl, ?_⟩
  cases h
  rfl

theorem lookup_dro_waste (r : Row) (bi prod dom expv ei cap ship : Val) :
    lookupCell "waste" (derivedRowOf r bi prod dom expv ei cap ship) =
      some (Cell.num ((((bi.add prod).sub dom).sub expv).sub ei)) := by
  simp only [derivedRowOf]
  rw [lookup_setCell_ne _ _ _ _ (by decide), lookup_setCell_ne _ _ _ _ (by decide),
    lookup_setCell_ne _ _ _ _ (by decide), lookup_setCell_ne _ _ _ _ (by decide),
    lookup_setCell_ne _ _ _ _ (by decide), lookup_setCell_ne _ _ _ _ (by decide),
    lookup_setCell_ne _ _ _ _ (by decide), lookup_setCell_self]

theorem lookup_dro_total (r : Row) (bi prod dom expv ei cap ship : Val) :
    lookupCell "total" (derivedRowOf r bi prod dom expv ei cap ship) =
      some (Cell.num (dom.add expv)) := by
  simp only [derivedRowOf]
  rw [lookup_setCell_ne _ _ _ _ (by decide), lookup_setCell_ne _ _ _ _ (by decide),
    lookup_setCell_ne _ _ _ _ (by decide), lookup_setCell_ne _ _ _ _ (by decide),
    lookup_setCell_ne _ _ _ _ (by decide), lookup_setCell_ne _ _ _ _ (by decide),
    lookup_setCell_self]

theorem lookup_dro_wasteRate (r : Row) (bi prod dom expv ei cap ship : Val) :
    lookupCell "waste_rate" (derivedRowOf r bi prod dom expv ei cap ship) =
      some (Cell.num (((((bi.add prod).sub dom).sub expv).sub ei).div
        (replaceZeroNan prod))) := by
  simp only [derivedRowOf]
  rw [lookup_setCell_ne _ _ _ _ (by decide), lookup_setCell_ne _ _ _ _ (by decide),
    lookup_setCell_ne _ _ _ _ (by decide), lookup_setCell_ne _ _ _ _ (by decide),
    lookup_setCell_ne _ _ _ _ (by decide), lookup_setCell_self]

theorem lookup_dro_avgInv (r : Row) (bi prod dom expv ei cap ship : Val) :
    lookupCell "avg_inventory" (derivedRowOf r bi prod dom expv ei cap ship) =
      some (Cell.num ((bi.add ei).div (Val.num 2))) := by
  simp only [derivedRowOf]
  rw [lookup_setCell_ne _ _ _ _ (by decide), lookup_setCell_ne _ _ _ _ (by decide),
    lookup_setCell_ne _ _ _ _ (by decide), lookup_setCell_ne _ _ _ _ (by decide),
    lookup_setCell_self]

theorem lookup_dro_invTurn (r : Row) (bi prod dom expv ei cap ship : Val) :
    lookupCell "inventory_turnover" (derivedRowOf r bi prod dom expv ei cap ship) =
      some (Cell.num (dom.div (replaceZeroNan ((bi.add ei).div (Val.num 2))))) := by
  simp only [derivedRowOf]
  rw [lookup_setCell_ne _ _ _ _ (by decide), lookup_setCell_ne _ _ _ _ (by decide),
    lookup_setCell_ne _ _ _ _ (by decide), lookup_setCell_self]

theorem lookup_dro_capUtil (r : Row) (bi prod dom expv ei cap ship : Val) :
    lookupCell "capacity_utilization" (derivedRowOf r bi prod dom expv ei cap ship) =
      some (Cell.num (prod.div (replaceZeroNan cap))) := by
  simp only [derivedRowOf]
  rw [lookup_setCell_ne _ _ _ _ (by decide), lookup_setCell_ne _ _ _ _ (by decide),
    lookup_setCell_self]

theorem lookup_dro_vpu (r : Row) (bi prod dom expv ei cap ship : Val) :
    lookupCell "value_per_unit" (derivedRowOf r bi prod dom expv ei cap ship) =
      some (Cell.num (ship.div (replaceZeroNan (dom.add expv)))) := by
  simp only [derivedRowOf]
  rw [lookup_setCell_ne _ _ _ _ (by decide), lookup_setCell_self]

theorem lookup_dro_wasteValue (r : Row) (bi prod dom expv ei cap ship : Val) :
    lookupCell "waste_value" (derivedRowOf r bi prod dom expv ei cap ship) =
      some (Cell.num (((((bi.add prod).sub dom).sub expv).sub ei).mul
        (ship.div (replaceZeroNan (dom.add expv))))) := by
  simp only [derivedRowOf]
  rw [lookup_setCell_self]

theorem lookup_dro_other (r : Row) (bi prod dom expv ei cap ship : Val)
    (c : String) (h : c ∉ derivedNames) :
    lookupCell c (derivedRowOf r bi prod dom expv ei cap ship) = lookupCell c r := by
  have h1 : c ≠ "waste" := fun e => h (by rw [e]; simp [derivedNames])
  have h2 : c ≠ "total" := fun e => h (by rw [e]; simp [derivedNames])
  have h3 : c ≠ "waste_rate" := fun e => h (by rw [e]; simp [derivedNames])
  have h4 : c ≠ "avg_inventory" := fun e => h (by rw [e]; simp [derivedNames])
  have h5 : c ≠ "inventory_turnover" := fun e => h (by rw [e]; simp [derivedNames])
  have h6 : c ≠ "capacity_utilization" := fun e => h (by rw [e]; simp [derivedNames])
  have h7 : c ≠ "value_per_unit" := fun e => h (by rw [e]; simp [derivedNames])
  have h8 : c ≠ "waste_value" := fun e => h (by rw [e]; simp [derivedNames])
  simp only [derivedRowOf]
  rw [lookup_setCell_ne _ _ _ _ h8, lookup_setCell_ne _ _ _ _ h7,
    lookup_setCell_ne _ _ _ _ h6, lookup_setCell_ne _ _ _ _ h5,
    lookup_setCell_ne _ _ _ _ h4, lookup_setCell_ne _ _ _ _ h3,
    lookup_setCell_ne _ _ _ _ h2, lookup_setCell_ne _ _ _ _ h1]

/-! Inversion and construction lemmas for the whole pipeline. -/

theorem derive_ok_inv (df : DF) (sel : List String) (yr : Int × Int) (out : DF)
    (h : derive df sel yr = Except.ok out) :
    df.cols.contains "Product" = true ∧ df.cols.contains "Year" = true ∧
    ∃ kept rows2,
      filterE (rowPasses sel yr) (coerceDF (renameDF df)).rows = Except.ok kept ∧
      firstMissing (coerceDF (renameDF df)).cols requiredCols = none ∧
      mapE deriveRow kept = Except.ok rows2 ∧
      out = ⟨addNames (coerceDF (renameDF df)).cols derivedNames,
             rows2.map sanitizeRow⟩ := by
  by_cases hP : df.cols.contains "Product"
  · by_cases hY : df.cols.contains "Year"
    · refine ⟨hP, hY, ?_⟩
      simp only [derive, hP, hY, not_true, if_false] at h
      cases hk : filterE (rowPasses sel yr) (coerceDF (renameDF df)).rows with
      | error e => rw [hk, ebind_error] at h; exact absurd h (by simp)
      | ok kept =>
      rw [hk, ebind_ok] at h
      cases hm : firstMissing (coerceDF (renameDF df)).cols requiredCols with
      | some c => rw [hm] at h; exact absurd h (by simp)
      | none =>
      rw [hm] at h
      cases hmap : mapE deriveRow kept with
      | error e => rw [hmap, ebind_error] at h; exact absurd h (by simp)
      | ok rows2 =>
      rw [hmap, ebind_ok, epure_eq] at h
      refine ⟨kept, rows2, rfl, rfl, hmap, ?_⟩
      cases h
      rfl
    · simp only [derive, hP, hY] at h
      exact absurd h (by simp)
  · simp only [derive, hP] at h
    exact absurd h (by simp)

theorem derive_eq_ok (df : DF) (sel : List String) (yr : Int × Int)
    (kept rows2 : List Row)
    (hP : df.cols.contains "Product" = true)
    (hY : df.cols.contains "Year" = true)
    (hk : filterE (rowPasses sel yr) (coerceDF (renameDF df)).rows = Except.ok kept)
    (hm : firstMissing (coerceDF (renameDF df)).cols requiredCols = none)
    (hmap : mapE deriveRow kept = Except.ok rows2) :
    derive df sel yr =
      Except.ok ⟨addNames (coerceDF (renameDF df)).cols derivedNames,
                 rows2.map sanitizeRow⟩ := by
  simp only [derive, hP, hY, not_true, if_false]
  rw [hk, ebind_ok, hm, hmap, ebind_ok, epure_eq]

theorem sanitizeVal_num (v : Val) : ∃ q : ℚ, sanitizeVal v = Val.num q := by
  cases v with
  | num q => exact ⟨q, rfl⟩
  | nan => exact ⟨0, rfl⟩
  | inf => exact ⟨0, rfl⟩
  | negInf => exact ⟨0, rfl⟩

theorem Val.div_nan (v : Val) : v.div Val.nan = Val.nan := by
  cases v <;> rfl

/-- C2: for every input on which the pipeline succeeds, every row of the
normalized output table has all eight derived fields present, and each holds
a finite number: none is null, positive infinity or negative infinity. -/
theorem C2_derived_fields_finite (df : DF) (sel : List String) (yr : Int × Int)
    (out : DF) (h : derive df sel yr = Except.ok out) :
    ∀ r ∈ out.rows, ∀ n ∈ derivedNames, ∃ q : ℚ,
      lookupCell n r = some (Cell.num (Val.num q)) := by
  obtain ⟨hP, hY, kept, rows2, hk, hm, hmap, hout⟩ := derive_ok_inv df sel yr out h
  subst hout
  intro r hr n hn
  obtain ⟨r2, hr2, hr2eq⟩ := List.mem_map.mp hr
  obtain ⟨r0, hr0, hdr⟩ := mapE_mem deriveRow kept rows2 hmap r2 hr2
  obtain ⟨bi, prod, dom, expv, ei, cap, ship, g1, g2, g3, g4, g5, g6, g7, rfl⟩ :=
    deriveRow_ok_inv r0 r2 hdr
  subst hr2eq
  rw [lookup_sanitizeRow]
  simp only [derivedNames, List.mem_cons, List.mem_singleton] at hn
  rcases hn with rfl | rfl | rfl | rfl | rfl | rfl | rfl | rfl | hn
  · rw [lookup_dro_waste]
    obtain ⟨q, hq⟩ := sanitizeVal_num ((((bi.add prod).sub dom).sub expv).sub ei)
    exact ⟨q, by simp [sanitizeCell, hq]⟩
  · rw [lookup_dro_total]
    obtain ⟨q, hq⟩ := sanitizeVal_num (dom.add expv)
    exact ⟨q, by simp [sanitizeCell, hq]⟩
  · rw [lookup_dro_wasteRate]
    obtain ⟨q, hq⟩ := sanitizeVal_num
      (((((bi.add prod).sub dom).sub expv).sub ei).div (replaceZeroNan prod))
    exact ⟨q, by simp [sanitizeCell, hq]⟩
  · rw [lookup_dro_avgInv]
    obtain ⟨q, hq⟩ := sanitizeVal_num ((bi.add ei).div (Val.num 2))
    exact ⟨q, by simp [sanitizeCell, hq]⟩
  · rw [lookup_dro_invTurn]
    obtain ⟨q, hq⟩ := sanitizeVal_num
      (dom.div (replaceZeroNan ((bi.add ei).div (Val.num 2))))
    exact ⟨q, by simp [sanitizeCell, hq]⟩
  · rw [lookup_dro_capUtil]
    obtain ⟨q, hq⟩ := sanitizeVal_num (prod.div (replaceZeroNan cap))
    exact ⟨q, by simp [sanitizeCell, hq]⟩
  · rw [lookup_dro_vpu]
    obtain ⟨q, hq⟩ := sanitizeVal_num (ship.div (replaceZeroNan (dom.add expv)))
    exact ⟨q, by simp [sanitizeCell, hq]⟩
  · rw [lookup_dro_wasteValue]
    obtain ⟨q, hq⟩ := sanitizeVal_num
      (((((bi.add prod).sub dom).sub expv).sub ei).mul
        (ship.div (replaceZeroNan (dom.add expv))))
    exact ⟨q, by simp [sanitizeCell, hq]⟩
  · simp at hn

/-- Witness for C2: the derived waste rate of the concrete table dfEx is a
finite number in the output. -/
theorem C2_witness : ∃ q : ℚ,
    lookupCell "waste_rate" outExRow = some (Cell.num (Val.num q)) :=
  C2_derived_fields_finite dfEx ["Apple"] (2020, 2020) outEx rfl
    outExRow (by
      have h : outEx.rows = [outExRow] := rfl
      rw [h]
      exact List.mem_cons_self _ _) "waste_rate" (by simp [derivedNames])

/-- C1 (amended): for a filtered row all five of whose coerced mass-balance
inputs are finite numbers, the derived waste field of the sanitized output
row equals begin inventory plus production minus domestic minus export minus
end inventory, exactly.  (When an input is null the output waste is the
sanitized fallback 0 instead; see the counterexample.) -/
theorem C1_amended_waste_identity (r r' : Row) (a b c d e : ℚ)
    (h : deriveRow r = Except.ok r')
    (h1 : getVal "begin_month_inventory" r = Except.ok (Val.num a))
    (h2 : getVal "production" r = Except.ok (Val.num b))
    (h3 : getVal "domestic" r = Except.ok (Val.num c))
    (h4 : getVal "export" r = Except.ok (Val.num d))
    (h5 : getVal "month_end_inventory" r = Except.ok (Val.num e)) :
    lookupCell "waste" (sanitizeRow r') =
      some (Cell.num (Val.num (a + b - c - d - e))) := by
  obtain ⟨bi, prod, dom, expv, ei, cap, ship, g1, g2, g3, g4, g5, g6, g7, rfl⟩ :=
    deriveRow_ok_inv r r' h
  injection g1.symm.trans h1 with hbi
  injection g2.symm.trans h2 with hprod
  injection g3.symm.trans h3 with hdom
  injection g4.symm.trans h4 with hexpv
  injection g5.symm.trans h5 with hei
  subst hbi hprod hdom hexpv hei
  rw [lookup_sanitizeRow, lookup_dro_waste]
  simp [Val.add, Val.sub, Val.neg, qadd_eq, sanitizeCell, sanitizeVal]
  ring

/-- Witness for C1 (amended) at a concrete coerced row: waste is exactly
100 + 500 - 400 - 50 - 80. -/
theorem C1_witness :
    lookupCell "waste" (sanitizeRow rnExOut) =
      some (Cell.num (Val.num (100 + 500 - 400 - 50 - 80))) :=
  C1_amended_waste_identity rnEx rnExOut 100 500 400 50 80 rfl rfl rfl rfl rfl rfl

/-- C1 is false as stated: for the concrete upload dfNull the coerced
beginning inventory is null, the formula with nulls treated as 0 gives
0 + 500 - 400 - 50 - 80 = -30, yet the output waste field is 0. -/
theorem C1_counterexample :
    derive dfNull ["A"] (2020, 2020) = Except.ok outNull ∧
    lookupCell "begin_month_inventory" (dfNullCoerced.rows.headD []) =
      some (Cell.num Val.nan) ∧
    lookupCell "production" (dfNullCoerced.rows.headD []) =
      some (Cell.num (Val.num 500)) ∧
    lookupCell "domestic" (dfNullCoerced.rows.headD []) =
      some (Cell.num (Val.num 400)) ∧
    lookupCell "export" (dfNullCoerced.rows.headD []) =
      some (Cell.num (Val.num 50)) ∧
    lookupCell "month_end_inventory" (dfNullCoerced.rows.headD []) =
      some (Cell.num (Val.num 80)) ∧
    outNull.rows = [outNullRow] ∧
    lookupCell "waste" outNullRow = some (Cell.num (Val.num 0)) ∧
    (0 : ℚ) ≠ 0 + 500 - 400 - 50 - 80 := by
  refine ⟨rfl, by decide, by decide, by decide, by decide, by decide, rfl,
    by decide, by norm_num⟩

/-- C3: for a filtered row whose coerced production is exactly zero, the
derived waste rate in the sanitized output is 0, regardless of the row's
waste value; the guarded division yields NaN, which sanitization turns into
0, and no error is raised. -/
theorem C3_zero_production_zero_waste_rate (r r' : Row)
    (h : deriveRow r = Except.ok r')
    (hp : getVal "production" r = Except.ok (Val.num 0)) :
    lookupCell "waste_rate" (sanitizeRow r') = some (Cell.num (Val.num 0)) := by
  obtain ⟨bi, prod, dom, expv, ei, cap, ship, g1, g2, g3, g4, g5, g6, g7, rfl⟩ :=
    deriveRow_ok_inv r r' h
  injection g2.symm.trans hp with hprod
  subst hprod
  rw [lookup_sanitizeRow, lookup_dro_wasteRate]
  simp [replaceZeroNan, Val.div_nan, sanitizeCell, sanitizeVal]

/-- Witness for C3 at a concrete coerced row with production 0 and waste
70. -/
theorem C3_witness :
    lookupCell "waste_rate" (sanitizeRow rnZeroProdOut) =
      some (Cell.num (Val.num 0)) :=
  C3_zero_production_zero_waste_rate rnZeroProd rnZeroProdOut rfl rfl

/-- C7: row filtering is inclusive at both year bounds: when the filter step
of lines 92-96 succeeds, a row carrying a string product and an integer year
is retained if and only if its product is selected and its year is at least
the lower bound and at most the upper bound. -/
theorem C7_filter_inclusive (sel : List String) (yr : Int × Int)
    (rows kept : List Row) (r : Row) (p : String) (y : Int)
    (hk : filterE (rowPasses sel yr) rows = Except.ok kept)
    (hp : lookupCell "Product" r = some (Cell.str p))
    (hy : lookupCell "Year" r = some (Cell.int y)) :
    r ∈ kept ↔ (r ∈ rows ∧ p ∈ sel ∧ yr.1 ≤ y ∧ y ≤ yr.2) := by
  rw [filterE_mem_iff _ _ _ hk r]
  have hpass : rowPasses sel yr r =
      Except.ok (sel.contains p && (decide (yr.1 ≤ y) && decide (y ≤ yr.2))) := by
    unfold rowPasses yearOf productSel
    rw [hy, hp]
    rfl
  rw [hpass]
  constructor
  · rintro ⟨hmem, hb⟩
    injection hb with hb
    rw [Bool.and_eq_true, Bool.and_eq_true] at hb
    exact ⟨hmem, List.mem_of_elem_eq_true hb.1,
      of_decide_eq_true hb.2.1, of_decide_eq_true hb.2.2⟩
  · rintro ⟨hmem, hsel, h1, h2⟩
    refine ⟨hmem, ?_⟩
    have hc : sel.contains p = true := List.elem_eq_true_of_mem hsel
    rw [hc, decide_eq_true h1, decide_eq_true h2]
    rfl

/-- Witness for C7: the concrete coerced row rnEx whose year equals both
bounds is retained. -/
theorem C7_witness :
    rnEx ∈ [rnEx] ↔ (rnEx ∈ [rnEx] ∧ "Apple" ∈ ["Apple"] ∧
      (2020 : Int) ≤ 2020 ∧ (2020 : Int) ≤ 2020) :=
  C7_filter_inclusive ["Apple"] (2020, 2020) [rnEx] [rnEx] rnEx "Apple" 2020
    (by rfl) (by rfl) (by rfl)

theorem productSel_nil (r : Row) : productSel [] r = false := by
  unfold productSel
  cases lookupCell "Product" r with
  | none => rfl
  | some c => cases c <;> rfl

theorem rowPasses_nil (sel : List String) (yr : Int × Int) (r : Row) (b : Bool)
    (h : rowPasses sel yr r = Except.ok b) :
    rowPasses [] yr r = Except.ok false := by
  unfold rowPasses at h ⊢
  cases hy : yearOf r with
  | error e => rw [hy, ebind_error] at h; exact absurd h (by simp)
  | ok y =>
      rw [ebind_ok, epure_eq, productSel_nil]
      rfl

/-- C8: if the pipeline succeeds on a table for some selection, then running
it with the empty product selection yields an empty result with the same
column set, not an error. -/
theorem C8_empty_selection (df : DF) (sel : List String) (yr : Int × Int)
    (out : DF) (h : derive df sel yr = Except.ok out) :
    derive df [] yr = Except.ok ⟨out.cols, []⟩ := by
  obtain ⟨hP, hY, kept, rows2, hk, hm, hmap, hout⟩ := derive_ok_inv df sel yr out h
  have hnil : filterE (rowPasses [] yr) (coerceDF (renameDF df)).rows =
      Except.ok [] :=
    filterE_ok_of_ok _ _ _ kept hk
      (fun r _ b hb => rowPasses_nil sel yr r b hb)
  have h0 := derive_eq_ok df [] yr [] [] hP hY hnil hm rfl
  subst hout
  simpa using h0

/-- Witness for C8 at the concrete table dfEx. -/
theorem C8_witness : derive dfEx [] (2020, 2020) = Except.ok ⟨outEx.cols, []⟩ :=
  C8_empty_selection dfEx ["Apple"] (2020, 2020) outEx rfl

theorem filterE_ok_of_year (sel : List String) (yr : Int × Int) (rows : List Row)
    (h : ∀ r ∈ rows, ∃ y : Int, lookupCell "Year" r = some (Cell.int y)) :
    ∃ kept, filterE (rowPasses sel yr) rows = Except.ok kept := by
  induction rows with
  | nil => exact ⟨[], rfl⟩
  | cons r t ih =>
      obtain ⟨y, hy⟩ := h r (List.mem_cons_self r t)
      obtain ⟨kept, hkept⟩ := ih (fun r' hr' => h r' (List.mem_cons_of_mem r hr'))
      have hpass : rowPasses sel yr r = Except.ok
          (productSel sel r && (decide (yr.1 ≤ y) && decide (y ≤ yr.2))) := by
        unfold rowPasses yearOf
        rw [hy]
        rfl
      refine ⟨if productSel sel r && (decide (yr.1 ≤ y) && decide (y ≤ yr.2))
        then r :: kept else kept, ?_⟩
      simp only [filterE]
      rw [hpass, ebind_ok, hkept, ebind_ok, epure_eq]

/-- C4 is false as stated: for the concrete upload dfMissing, which lacks the
beginning-inventory column, the pipeline raises a key error instead of
substituting a constant default and completing. -/
theorem C4_counterexample :
    derive dfMissing ["A"] (2020, 2020) =
      Except.error "KeyError: begin_month_inventory" := rfl

/-- C4 (amended): when a required numeric role column is absent from the
renamed table, the transformation raises a key error naming it (here the
beginning-inventory role), rather than substituting a default; the coercion
loop merely skips absent columns while the derived-metric block accesses
them unconditionally. -/
theorem C4_amended_missing_column_raises (df : DF) (sel : List String)
    (yr : Int × Int)
    (hP : df.cols.contains "Product" = true)
    (hY : df.cols.contains "Year" = true)
    (hyear : ∀ r ∈ (coerceDF (renameDF df)).rows,
      ∃ y : Int, lookupCell "Year" r = some (Cell.int y))
    (hmiss : "begin_month_inventory" ∉ (coerceDF (renameDF df)).cols) :
    derive df sel yr = Except.error "KeyError: begin_month_inventory" := by
  obtain ⟨kept, hkept⟩ := filterE_ok_of_year sel yr (coerceDF (renameDF df)).rows hyear
  have hcb : (coerceDF (renameDF df)).cols.contains "begin_month_inventory" = false := by
    cases hcb : (coerceDF (renameDF df)).cols.contains "begin_month_inventory" with
    | false => rfl
    | true => exact absurd (List.mem_of_elem_eq_true hcb) hmiss
  simp only [derive, hP, hY, not_true, if_false]
  rw [hkept, ebind_ok]
  simp only [requiredCols, firstMissing, hcb, if_false]
  rfl

/-- Witness for C4 (amended) at the concrete table dfMissing. -/
theorem C4_witness :
    derive dfMissing ["A"] (2020, 2020) =
      Except.error "KeyError: begin_month_inventory" :=
  C4_amended_missing_column_raises dfMissing ["A"] (2020, 2020)
    (by decide) (by decide)
    (by
      intro r hr
      have hrows : (coerceDF (renameDF dfMissing)).rows =
          [(coerceDF (renameDF dfMissing)).rows.headD []] := rfl
      rw [hrows] at hr
      rcases List.mem_singleton.mp hr with rfl
      exact ⟨2020, by decide⟩)
    (by decide)

/-- C5 is false as stated: the header with a trailing space is not stripped
and not bound to the production role; renaming leaves it unchanged and the
pipeline then fails to find the expected columns. -/
theorem C5_counterexample :
    (renameDF dfSpace).cols = ["Product", "Year", "Production "] ∧
    "production" ∉ (renameDF dfSpace).cols ∧
    "Production " ≠ "Production" ∧
    derive dfSpace ["A"] (2020, 2020) =
      Except.error "KeyError: begin_month_inventory" := by
  refine ⟨rfl, by decide, by decide, rfl⟩

/-- C5 (amended): binding of headers to roles is by exact string match
against the seven expected literals only; a column name that is not exactly
one of them, including any name differing only in whitespace or line breaks,
is left unchanged by the rename step and so is not bound to a role. -/
theorem C5_amended_exact_match_only (df : DF) (s : String)
    (hs : s ∈ df.cols) (hk : s ∉ renameKeys) : s ∈ (renameDF df).cols := by
  show s ∈ df.cols.map renameName
  have hmem := List.mem_map_of_mem renameName hs
  rwa [renameName_eq_self s hk] at hmem

/-- Witness for C5 (amended): the trailing-space header of dfSpace survives
renaming unchanged. -/
theorem C5_witness : "Production " ∈ (renameDF dfSpace).cols :=
  C5_amended_exact_match_only dfSpace "Production " (by decide) (by decide)

theorem stripCS_append (s t : String) :
    (stripCS (s ++ t)).data = (stripCS s).data ++ (stripCS t).data := by
  show ((s ++ t).data.filter _) = _
  have hd : (s ++ t).data = s.data ++ t.data := rfl
  rw [hd, List.filter_append]
  rfl

theorem stripCS_comma : (stripCS ",").data = [] := rfl

theorem stripCS_space : (stripCS " ").data = [] := rfl

/-- C6: numeric coercion removes comma thousands-separators and interior
space characters before parsing, so inserting a comma or a space anywhere in
a value does not change the coerced result; a cleaned value that parses
yields that number, and a cleaned value that fails to parse becomes null
(NaN), which the sanitization step then turns into 0 instead of raising. -/
theorem C6_numeric_coercion :
    (∀ s1 s2 : String, coerceStr (s1 ++ "," ++ s2) = coerceStr (s1 ++ s2)) ∧
    (∀ s1 s2 : String, coerceStr (s1 ++ " " ++ s2) = coerceStr (s1 ++ s2)) ∧
    (∀ (s : String) (q : ℚ), parseNum (stripCS s).data = some q →
      coerceStr s = Val.num q) ∧
    (∀ s : String, parseNum (stripCS s).data = none →
      coerceStr s = Val.nan ∧ sanitizeVal (coerceStr s) = Val.num 0) := by
  refine ⟨?_, ?_, ?_, ?_⟩
  · intro s1 s2
    have hdata : (stripCS (s1 ++ "," ++ s2)).data = (stripCS (s1 ++ s2)).data := by
      rw [stripCS_append, stripCS_append, stripCS_append, stripCS_comma]
      simp
    unfold coerceStr
    rw [hdata]
  · intro s1 s2
    have hdata : (stripCS (s1 ++ " " ++ s2)).data = (stripCS (s1 ++ s2)).data := by
      rw [stripCS_append, stripCS_append, stripCS_append, stripCS_space]
      simp
    unfold coerceStr
    rw [hdata]
  · intro s q h
    unfold coerceStr
    rw [h]
  · intro s h
    unfold coerceStr
    rw [h]
    exact ⟨rfl, rfl⟩

/-- Witness for C6: the unparseable value 12x coerces to null and then to 0
after sanitization. -/
theorem C6_witness :
    coerceStr "12x" = Val.nan ∧ sanitizeVal (coerceStr "12x") = Val.num 0 :=
  C6_numeric_coercion.2.2.2 "12x" (by decide)

theorem getVal_ok_lookup (c : String) (r : Row) (v : Val)
    (h : getVal c r = Except.ok v) : lookupCell c r = some (Cell.num v) := by
  unfold getVal at h
  cases hl : lookupCell c r with
  | none => rw [hl] at h; exact absurd h (by simp)
  | some cell =>
      rw [hl] at h
      cases cell with
      | str s => exact absurd h (by simp)
      | int z => exact absurd h (by simp)
      | num w => injection h with h; rw [h]

theorem addExtraRow_ok_inv (r r' : Row) (h : addExtraRow r = Except.ok r') :
    ∃ ei dom prod,
      getVal "month_end_inventory" r = Except.ok ei ∧
      getVal "domestic" r = Except.ok dom ∧
      getVal "production" r = Except.ok prod ∧
      r' = setCell (setCell r "days_of_supply"
        (Cell.num ((ei.div (replaceZeroNan dom)).mul (Val.num 30))))
        "production_demand_gap" (Cell.num (prod.sub dom)) := by
  simp only [addExtraRow] at h
  cases h1 : getVal "month_end_inventory" r with
  | error e => rw [h1, ebind_error] at h; exact absurd h (by simp)
  | ok ei =>
  rw [h1, ebind_ok] at h
  cases h2 : getVal "domestic" r with
  | error e => rw [h2, ebind_error] at h; exact absurd h (by simp)
  | ok dom =>
  rw [h2, ebind_ok] at h
  cases h3 : getVal "production" r with
  | error e => rw [h3, ebind_error] at h; exact absurd h (by simp)
  | ok prod =>
  rw [h3, ebind_ok, epure_eq] at h
  refine ⟨ei, dom, prod, rfl, rfl, rfl, ?_⟩
  cases h
  rfl

theorem addExtras_ok_inv (d ext : DF) (h : addExtras d = Except.ok ext) :
    ∃ rows, mapE addExtraRow d.rows = Except.ok rows ∧
      ext = ⟨addNames d.cols ["days_of_supply", "production_demand_gap"], rows⟩ := by
  unfold addExtras at h
  cases hm : firstMissing d.cols ["month_end_inventory", "domestic", "production"] with
  | some c => rw [hm] at h; exact absurd h (by simp)
  | none =>
  rw [hm] at h
  cases hmap : mapE addExtraRow d.rows with
  | error e => rw [hmap, ebind_error] at h; exact absurd h (by simp)
  | ok rows =>
  rw [hmap, ebind_ok, epure_eq] at h
  refine ⟨rows, rfl, ?_⟩
  cases h
  rfl

/-- C10: the days-of-supply and production-demand-gap columns are appended
after the sanitization pass, so in the table offered for download every row
whose (sanitized) domestic value is 0 carries a null (NaN), not 0, in
days_of_supply: the download output is not fully null-free. -/
theorem C10_days_of_supply_null (df : DF) (sel : List String) (yr : Int × Int)
    (out ext : DF)
    (_hderive : derive df sel yr = Except.ok out)
    (hext : addExtras out = Except.ok ext) :
    ∀ r ∈ ext.rows, lookupCell "domestic" r = some (Cell.num (Val.num 0)) →
      lookupCell "days_of_supply" r = some (Cell.num Val.nan) := by
  obtain ⟨rows, hmap, hout⟩ := addExtras_ok_inv out ext hext
  subst hout
  intro r hr hdom
  obtain ⟨r0, hr0, hrow⟩ := mapE_mem addExtraRow out.rows rows hmap r hr
  obtain ⟨ei, dom, prod, g1, g2, g3, rfl⟩ := addExtraRow_ok_inv r0 r hrow
  have hdom0 : lookupCell "domestic"
      (setCell (setCell r0 "days_of_supply"
        (Cell.num ((ei.div (replaceZeroNan dom)).mul (Val.num 30))))
        "production_demand_gap" (Cell.num (prod.sub dom))) =
      lookupCell "domestic" r0 := by
    rw [lookup_setCell_ne _ _ _ _ (by decide), lookup_setCell_ne _ _ _ _ (by decide)]
  rw [hdom0] at hdom
  rw [getVal_ok_lookup _ _ _ g2] at hdom
  injection hdom with hdom
  injection hdom with hdom
  have hdos : lookupCell "days_of_supply"
      (setCell (setCell r0 "days_of_supply"
        (Cell.num ((ei.div (replaceZeroNan dom)).mul (Val.num 30))))
        "production_demand_gap" (Cell.num (prod.sub dom))) =
      some (Cell.num ((ei.div (replaceZeroNan dom)).mul (Val.num 30))) := by
    rw [lookup_setCell_ne _ _ _ _ (by decide), lookup_setCell_self]
  rw [hdos, hdom]
  simp [replaceZeroNan, Val.div_nan, Val.mul]

/-- Witness for C10 at the concrete table dfZeroDom whose domestic value is
0: days_of_supply is null in the download table. -/
theorem C10_witness :
    lookupCell "days_of_supply" extZeroDomRow = some (Cell.num Val.nan) :=
  C10_days_of_supply_null dfZeroDom ["A"] (2020, 2020) outZeroDom extZeroDom
    rfl rfl extZeroDomRow
    (by
      have h : extZeroDom.rows = [extZeroDomRow] := rfl
      rw [h]
      exact List.mem_cons_self _ _)
    (by decide)

/-! Lemmas about float-cell invariants of rows, used for the idempotence
analysis. -/

theorem updateCol_makes_num (c : String) (r : Row) : numCellsAt c (updateCol c r) := by
  intro kv hkv hk
  simp only [updateCol] at hkv
  obtain ⟨kw, _, heq⟩ := List.mem_map.mp hkv
  by_cases hc : kw.1 = c
  · rw [if_pos hc] at heq
    rw [← heq]
    cases kw.2 with
    | str s => exact ⟨coerceStr s, rfl⟩
    | int z => exact ⟨Val.num (z : ℚ), rfl⟩
    | num v => exact ⟨v, rfl⟩
  · rw [if_neg hc] at heq
    rw [← heq] at hk
    exact absurd hk hc

theorem updateCol_preserves_num (c c' : String) (r : Row) (h : numCellsAt c' r) :
    numCellsAt c' (updateCol c r) := by
  intro kv hkv hk
  simp only [updateCol] at hkv
  obtain ⟨kw, hkw, heq⟩ := List.mem_map.mp hkv
  by_cases hc : kw.1 = c
  · rw [if_pos hc] at heq
    rw [← heq]
    cases kw.2 with
    | str s => exact ⟨coerceStr s, rfl⟩
    | int z => exact ⟨Val.num (z : ℚ), rfl⟩
    | num v => exact ⟨v, rfl⟩
  · rw [if_neg hc] at heq
    rw [← heq]
    rw [← heq] at hk
    exact h kw hkw hk

theorem coerceRowWith_preserves_num (cols names : List String) (c : String) (r : Row)
    (h : numCellsAt c r) : numCellsAt c (coerceRowWith cols names r) := by
  induction names generalizing r with
  | nil => exact h
  | cons n t ih =>
      simp only [coerceRowWith]
      by_cases hn : cols.contains n
      · rw [if_pos hn]
        exact ih _ (updateCol_preserves_num n c r h)
      · rw [if_neg hn]
        exact ih _ h

theorem coerceRowWith_num (cols names : List String) (c : String) (r : Row)
    (hc : cols.contains c = true) (hm : c ∈ names) :
    numCellsAt c (coerceRowWith cols names r) := by
  induction names generalizing r with
  | nil => simp at hm
  | cons n t ih =>
      simp only [coerceRowWith]
      rcases List.mem_cons.mp hm with rfl | hm'
      · rw [if_pos hc]
        by_cases hct : c ∈ t
        · exact ih _ hct
        · exact coerceRowWith_preserves_num cols t c _ (updateCol_makes_num c r)
      · by_cases hn : cols.contains n
        · rw [if_pos hn]
          exact ih _ hm'
        · rw [if_neg hn]
          exact ih _ hm'

theorem setCell_preserves_num (c k : String) (v : Val) (r : Row)
    (h : numCellsAt c r) : numCellsAt c (setCell r k (Cell.num v)) := by
  induction r with
  | nil =>
      intro kv hkv _
      simp [setCell] at hkv
      rw [hkv]
      exact ⟨v, rfl⟩
  | cons kw t ih =>
      obtain ⟨k0, w0⟩ := kw
      intro kv hkv hk
      by_cases hk0 : k0 = k
      · simp only [setCell, if_pos hk0] at hkv
        rcases List.mem_cons.mp hkv with rfl | hkv'
        · exact ⟨v, rfl⟩
        · exact h kv (List.mem_cons_of_mem _ hkv') hk
      · simp only [setCell, if_neg hk0] at hkv
        rcases List.mem_cons.mp hkv with rfl | hkv'
        · exact h (k0, w0) (List.mem_cons_self _ _) hk
        · exact ih (fun kv' hkv' hc' => h kv' (List.mem_cons_of_mem _ hkv') hc') kv hkv' hk

theorem sanitizeRow_preserves_num (c : String) (r : Row) (h : numCellsAt c r) :
    numCellsAt c (sanitizeRow r) := by
  intro kv hkv hk
  simp only [sanitizeRow] at hkv
  obtain ⟨kw, hkw, heq⟩ := List.mem_map.mp hkv
  rw [← heq] at hk ⊢
  obtain ⟨v, hv⟩ := h kw hkw hk
  rw [hv]
  exact ⟨sanitizeVal v, rfl⟩

theorem derivedRowOf_preserves_num (c : String) (r : Row)
    (bi prod dom expv ei cap ship : Val) (h : numCellsAt c r) :
    numCellsAt c (derivedRowOf r bi prod dom expv ei cap ship) := by
  simp only [derivedRowOf]
  exact setCell_preserves_num _ _ _ _ (setCell_preserves_num _ _ _ _
    (setCell_preserves_num _ _ _ _ (setCell_preserves_num _ _ _ _
    (setCell_preserves_num _ _ _ _ (setCell_preserves_num _ _ _ _
    (setCell_preserves_num _ _ _ _ (setCell_preserves_num _ _ _ _ h)))))))

theorem keysFixed_derivedRowOf (r : Row) (bi prod dom expv ei cap ship : Val)
    (h : keysFixed r) :
    keysFixed (derivedRowOf r bi prod dom expv ei cap ship) := by
  simp only [derivedRowOf]
  exact keysFixed_setCell _ _ _ (keysFixed_setCell _ _ _ (keysFixed_setCell _ _ _
    (keysFixed_setCell _ _ _ (keysFixed_setCell _ _ _ (keysFixed_setCell _ _ _
    (keysFixed_setCell _ _ _ (keysFixed_setCell _ _ _ h (by decide)) (by decide))
    (by decide)) (by decide)) (by decide)) (by decide)) (by decide)) (by decide)

theorem updateCol_fix (c : String) (r : Row) (h : numCellsAt c r) :
    updateCol c r = r := by
  unfold updateCol
  apply map_fix
  intro kv hkv
  by_cases hc : kv.1 = c
  · rw [if_pos hc]
    obtain ⟨v, hv⟩ := h kv hkv hc
    rw [hv]
    cases kv
    simp at hv ⊢
    rw [hv]
    rfl
  · rw [if_neg hc]

theorem coerceRowWith_fix (cols names : List String) (r : Row)
    (h : ∀ c ∈ names, numCellsAt c r) : coerceRowWith cols names r = r := by
  induction names with
  | nil => rfl
  | cons n t ih =>
      simp only [coerceRowWith]
      by_cases hn : cols.contains n
      · rw [if_pos hn, updateCol_fix n r (h n (List.mem_cons_self n t))]
        exact ih (fun c hc => h c (List.mem_cons_of_mem n hc))
      · rw [if_neg hn]
        exact ih (fun c hc => h c (List.mem_cons_of_mem n hc))

theorem getVal_sanitized_dro (c : String) (r0 : Row) (q : ℚ)
    (bi prod dom expv ei cap ship : Val)
    (hnd : c ∉ derivedNames)
    (hv : getVal c r0 = Except.ok (Val.num q)) :
    getVal c (sanitizeRow (derivedRowOf r0 bi prod dom expv ei cap ship)) =
      Except.ok (Val.num q) := by
  have hl := getVal_ok_lookup c r0 _ hv
  unfold getVal
  rw [lookup_sanitizeRow, lookup_dro_other r0 bi prod dom expv ei cap ship c hnd, hl]
  rfl

theorem sanitize_derivedRowOf_idem (r0 : Row) (bi prod dom expv ei cap ship : Val) :
    sanitizeRow (derivedRowOf (sanitizeRow (derivedRowOf r0 bi prod dom expv ei cap ship))
      bi prod dom expv ei cap ship) =
    sanitizeRow (derivedRowOf r0 bi prod dom expv ei cap ship) := by
  generalize hYdef : sanitizeRow (derivedRowOf r0 bi prod dom expv ei cap ship) = Y
  have hYs : sanitizeRow Y = Y := by rw [← hYdef]; exact sanitizeRow_idem _
  have l1 : lookupCell "waste" Y =
      some (Cell.num (sanitizeVal ((((bi.add prod).sub dom).sub expv).sub ei))) := by
    rw [← hYdef, lookup_sanitizeRow, lookup_dro_waste]; rfl
  have l2 : lookupCell "total" Y =
      some (Cell.num (sanitizeVal (dom.add expv))) := by
    rw [← hYdef, lookup_sanitizeRow, lookup_dro_total]; rfl
  have l3 : lookupCell "waste_rate" Y =
      some (Cell.num (sanitizeVal (((((bi.add prod).sub dom).sub expv).sub ei).div
        (replaceZeroNan prod)))) := by
    rw [← hYdef, lookup_sanitizeRow, lookup_dro_wasteRate]; rfl
  have l4 : lookupCell "avg_inventory" Y =
      some (Cell.num (sanitizeVal ((bi.add ei).div (Val.num 2)))) := by
    rw [← hYdef, lookup_sanitizeRow, lookup_dro_avgInv]; rfl
  have l5 : lookupCell "inventory_turnover" Y =
      some (Cell.num (sanitizeVal (dom.div
        (replaceZeroNan ((bi.add ei).div (Val.num 2)))))) := by
    rw [← hYdef, lookup_sanitizeRow, lookup_dro_invTurn]; rfl
  have l6 : lookupCell "capacity_utilization" Y =
      some (Cell.num (sanitizeVal (prod.div (replaceZeroNan cap)))) := by
    rw [← hYdef, lookup_sanitizeRow, lookup_dro_capUtil]; rfl
  have l7 : lookupCell "value_per_unit" Y =
      some (Cell.num (sanitizeVal (ship.div (replaceZeroNan (dom.add expv))))) := by
    rw [← hYdef, lookup_sanitizeRow, lookup_dro_vpu]; rfl
  have l8 : lookupCell "waste_value" Y =
      some (Cell.num (sanitizeVal (((((bi.add prod).sub dom).sub expv).sub ei).mul
        (ship.div (replaceZeroNan (dom.add expv)))))) := by
    rw [← hYdef, lookup_sanitizeRow, lookup_dro_wasteValue]; rfl
  simp only [derivedRowOf]
  simp only [sanitizeRow_setCell, sanitizeCell]
  rw [hYs]
  rw [setCell_fix _ _ _ l1, setCell_fix _ _ _ l2, setCell_fix _ _ _ l3,
    setCell_fix _ _ _ l4, setCell_fix _ _ _ l5, setCell_fix _ _ _ l6,
    setCell_fix _ _ _ l7, setCell_fix _ _ _ l8]

/-- C9 is false as stated: on the concrete upload dfNull the pipeline
succeeds, but re-deriving its own output (all products selected, a year
range covering all its years, and the rename dictionary acting as the
identity on the already-normalized headers) changes the waste field from 0
to -30, because the derived fields are recomputed from the sanitized
inputs. -/
theorem C9_counterexample :
    derive dfNull ["A"] (2020, 2020) = Except.ok outNull ∧
    derive outNull ["A"] (2015, 2025) = Except.ok outNull2 ∧
    outNull2 ≠ outNull ∧
    outNull.rows.map (lookupCell "waste") = [some (Cell.num (Val.num 0))] ∧
    outNull2.rows.map (lookupCell "waste") = [some (Cell.num (Val.num (-30)))] := by
  have e1 : outNull.rows.map (lookupCell "waste") =
      [some (Cell.num (Val.num 0))] := by rfl
  have e2 : outNull2.rows.map (lookupCell "waste") =
      [some (Cell.num (Val.num (-30)))] := by rfl
  refine ⟨rfl, rfl, ?_, e1, e2⟩
  intro h
  rw [h, e1] at e2
  exact absurd e2 (by simp)

/-- C9 (amended): the pipeline is a pure function, hence deterministic, and
re-deriving its own output leaves it unchanged whenever every coerced
numeric input cell of the original table is a finite number (no nulls or
infinities) and the second call selects every product of the output and a
year range covering all its rows.  With a null coerced input the derived
fields change on re-derivation (see the counterexample). -/
theorem renameDF_mk (cs : List String) (rs : List Row) :
    renameDF ⟨cs, rs⟩ = ⟨cs.map renameName, rs.map renameRow⟩ := rfl

theorem coerceDF_mk (cs : List String) (rs : List Row) :
    coerceDF ⟨cs, rs⟩ = ⟨cs, rs.map (coerceRowWith cs numericTargets)⟩ := rfl

set_option maxHeartbeats 1000000 in
theorem C9_amended_idempotent (df : DF) (sel sel' : List String)
    (yr yr' : Int × Int) (out : DF)
    (hok : derive df sel yr = Except.ok out)
    (hfin : ∀ r ∈ (coerceDF (renameDF df)).rows, ∀ c ∈ requiredCols,
      cellFinite (lookupCell c r) = true)
    (hcov : ∀ r ∈ out.rows, rowPasses sel' yr' r = Except.ok true) :
    derive out sel' yr' = Except.ok out := by
  obtain ⟨hP, hY, kept, rows2, hk, hm, hmap, hout⟩ := derive_ok_inv df sel yr out hok
  have hkeptsub := filterE_subset _ _ _ hk
  have hd1keys : ∀ r ∈ (coerceDF (renameDF df)).rows, keysFixed r := by
    intro r hr
    obtain ⟨r1, hr1, rfl⟩ := List.mem_map.mp hr
    obtain ⟨r2, hr2, rfl⟩ := List.mem_map.mp hr1
    exact keysFixed_coerceRowWith _ _ _ (keysFixed_renameRow r2)
  have hcontains : ∀ c ∈ requiredCols,
      (coerceDF (renameDF df)).cols.contains c = true := by
    intro c hc
    exact List.elem_eq_true_of_mem ((firstMissing_none_iff _ _).mp hm c hc)
  have htargets_req : ∀ c ∈ numericTargets, c ∈ requiredCols := by
    intro c hc
    simp only [numericTargets, List.mem_cons, List.not_mem_nil, or_false] at hc
    rcases hc with rfl | rfl | rfl | rfl | rfl | rfl | rfl <;> decide
  have hd1num : ∀ r ∈ (coerceDF (renameDF df)).rows,
      ∀ c ∈ numericTargets, numCellsAt c r := by
    intro r hr c hc
    obtain ⟨r1, hr1, rfl⟩ := List.mem_map.mp hr
    exact coerceRowWith_num _ _ _ _ (hcontains c (htargets_req c hc)) hc
  have finVal : ∀ r0 ∈ (coerceDF (renameDF df)).rows,
      ∀ c ∈ requiredCols, ∀ v : Val, getVal c r0 = Except.ok v →
      ∃ q : ℚ, v = Val.num q := by
    intro r0 hr0 c hc v hv
    have hcf := hfin r0 hr0 c hc
    rw [getVal_ok_lookup c r0 v hv] at hcf
    cases v with
    | num q => exact ⟨q, rfl⟩
    | nan => exact absurd hcf (by simp [cellFinite])
    | inf => exact absurd hcf (by simp [cellFinite])
    | negInf => exact absurd hcf (by simp [cellFinite])
  subst hout
  have hre : ∀ r ∈ rows2.map sanitizeRow,
      keysFixed r ∧ (∀ c ∈ numericTargets, numCellsAt c r) ∧
      ∃ y, deriveRow r = Except.ok y ∧ sanitizeRow y = r := by
    intro r hr
    obtain ⟨r2, hr2, hr2eq⟩ := List.mem_map.mp hr
    obtain ⟨r0, hr0, hdr⟩ := mapE_mem deriveRow kept rows2 hmap r2 hr2
    obtain ⟨bi, prod, dom, expv, ei, cap, ship, g1, g2, g3, g4, g5, g6, g7, rfl⟩ :=
      deriveRow_ok_inv r0 r2 hdr
    have hr0d1 := hkeptsub r0 hr0
    obtain ⟨a, ha⟩ := finVal r0 hr0d1 _ (by decide) bi g1
    obtain ⟨b, hb⟩ := finVal r0 hr0d1 _ (by decide) prod g2
    obtain ⟨c, hcq⟩ := finVal r0 hr0d1 _ (by decide) dom g3
    obtain ⟨d, hdq⟩ := finVal r0 hr0d1 _ (by decide) expv g4
    obtain ⟨e, heq'⟩ := finVal r0 hr0d1 _ (by decide) ei g5
    obtain ⟨f, hfq⟩ := finVal r0 hr0d1 _ (by decide) cap g6
    obtain ⟨g, hgq⟩ := finVal r0 hr0d1 _ (by decide) ship g7
    subst ha hb hcq hdq heq' hfq hgq
    subst hr2eq
    refine ⟨?_, ?_, ?_⟩
    · exact keysFixed_sanitizeRow _
        (keysFixed_derivedRowOf _ _ _ _ _ _ _ _ (hd1keys r0 hr0d1))
    · intro c0 hc0
      exact sanitizeRow_preserves_num _ _
        (derivedRowOf_preserves_num _ _ _ _ _ _ _ _ _ (hd1num r0 hr0d1 c0 hc0))
    · refine ⟨derivedRowOf (sanitizeRow (derivedRowOf r0 (Val.num a) (Val.num b)
        (Val.num c) (Val.num d) (Val.num e) (Val.num f) (Val.num g)))
        (Val.num a) (Val.num b) (Val.num c) (Val.num d) (Val.num e)
        (Val.num f) (Val.num g), ?_, ?_⟩
      · exact deriveRow_eq _ _ _ _ _ _ _ _
          (getVal_sanitized_dro _ _ _ _ _ _ _ _ _ _ (by decide) g1)
          (getVal_sanitized_dro _ _ _ _ _ _ _ _ _ _ (by decide) g2)
          (getVal_sanitized_dro _ _ _ _ _ _ _ _ _ _ (by decide) g3)
          (getVal_sanitized_dro _ _ _ _ _ _ _ _ _ _ (by decide) g4)
          (getVal_sanitized_dro _ _ _ _ _ _ _ _ _ _ (by decide) g5)
          (getVal_sanitized_dro _ _ _ _ _ _ _ _ _ _ (by decide) g6)
          (getVal_sanitized_dro _ _ _ _ _ _ _ _ _ _ (by decide) g7)
      · exact sanitize_derivedRowOf_idem r0 _ _ _ _ _ _ _
  set A := addNames (coerceDF (renameDF df)).cols derivedNames with hA
  set B := rows2.map sanitizeRow with hB
  have hAfix : ∀ x ∈ A, renameName x = x := by
    intro x hx
    rw [hA] at hx
    rcases mem_addNames _ _ _ hx with hx1 | hx2
    · obtain ⟨s, _, rfl⟩ := List.mem_map.mp hx1
      exact renameName_idem s
    · simp only [derivedNames, List.mem_cons, List.not_mem_nil, or_false] at hx2
      rcases hx2 with rfl | rfl | rfl | rfl | rfl | rfl | rfl | rfl <;> decide
  have hro : renameDF ⟨A, B⟩ = ⟨A, B⟩ := by
    rw [renameDF_mk, map_fix renameName A hAfix,
      map_fix renameRow B (fun r hr => renameRow_fix r (hre r hr).1)]
  have hco : coerceDF (⟨A, B⟩ : DF) = ⟨A, B⟩ := by
    rw [coerceDF_mk, map_fix _ B (fun r hr =>
      coerceRowWith_fix A numericTargets r (fun c hc => (hre r hr).2.1 c hc))]
  have hPA : A.contains "Product" = true := by
    apply List.elem_eq_true_of_mem
    rw [hA]
    apply mem_addNames_of_mem
    have hPm : "Product" ∈ df.cols := List.mem_of_elem_eq_true hP
    have hmm := List.mem_map_of_mem renameName hPm
    rwa [(by decide : renameName "Product" = "Product")] at hmm
  have hYA : A.contains "Year" = true := by
    apply List.elem_eq_true_of_mem
    rw [hA]
    apply mem_addNames_of_mem
    have hYm : "Year" ∈ df.cols := List.mem_of_elem_eq_true hY
    have hmm := List.mem_map_of_mem renameName hYm
    rwa [(by decide : renameName "Year" = "Year")] at hmm
  have hmA : firstMissing A requiredCols = none := by
    rw [hA]
    exact (firstMissing_none_iff _ _).mpr
      (fun c hc => mem_addNames_of_mem _ _ _ ((firstMissing_none_iff _ _).mp hm c hc))
  obtain ⟨rows2', hmap', hsan'⟩ :=
    mapE_pointwise deriveRow sanitizeRow B (fun r hr => (hre r hr).2.2)
  have hfB : filterE (rowPasses sel' yr') (coerceDF (renameDF ⟨A, B⟩)).rows =
      Except.ok B := by
    rw [hro, hco]
    exact filterE_all_true _ _ hcov
  have hmA2 : firstMissing (coerceDF (renameDF (⟨A, B⟩ : DF))).cols requiredCols =
      none := by
    rw [hro, hco]
    exact hmA
  have h0 := derive_eq_ok ⟨A, B⟩ sel' yr' B rows2' hPA hYA hfB hmA2 hmap'
  rw [hro, hco, hsan'] at h0
  have haddfix : addNames A derivedNames = A := by
    rw [hA]
    exact addNames_fix _ _ (fun n hn => mem_ns_addNames _ _ _ hn)
  dsimp only at h0
  rw [haddfix] at h0
  exact h0

/-- Witness for C9 (amended): on the concrete table dfEx, whose coerced
inputs are all finite, re-deriving the output with its product selected and
a covering year range returns the output unchanged. -/
theorem C9_witness : derive outEx ["Apple"] (2015, 2025) = Except.ok outEx :=
  C9_amended_idempotent dfEx ["Apple"] ["Apple"] (2020, 2020) (2015, 2025)
    outEx rfl (by decide)
    (by
      intro r hr
      have h : outEx.rows = [outExRow] := rfl
      rw [h] at hr
      rcases List.mem_singleton.mp hr with rfl
      rfl)
